import Mathlib

/-!
Shallow embedding of the rDock pipeline's orchestration and job-matching layer
(src/bin/3.site-prediction.py, 41.idock.py, 42.vina.py, 51.idock-Rescoring.py,
52.vina-Rescoring.py), together with proofs checking the specification's claims
about identity-key normalization, cross-stage matching, score fusion, centroid
aggregation, ordering of the aggregated coordinate table, and the docking log.

Numeric scores and coordinates are modelled as rationals; the strings and list
operations of the Python code are modelled directly on `String` / `List`.
-/

namespace RDock

/-! ### Identity-key normalization

Embeds `os.path.basename(f).replace("out-", "").replace(".pdbqt", "")`
(41.idock.py line 55, 42.vina.py line 84, 51.idock-Rescoring.py line 60,
52.vina-Rescoring.py line 66).  Python's `str.replace(pat, "")` removes every
occurrence of `pat`, scanning left to right over non-overlapping occurrences;
`removeOut` and `removePdbqt` implement exactly that scan for the two concrete
patterns. -/

/-- Left-to-right removal of every (non-overlapping) occurrence of `"out-"`,
as performed by `.replace("out-", "")`. -/
def removeOut : List Char → List Char
  | 'o' :: 'u' :: 't' :: '-' :: rest => removeOut rest
  | c :: rest => c :: removeOut rest
  | [] => []

/-- Left-to-right removal of every (non-overlapping) occurrence of `".pdbqt"`,
as performed by `.replace(".pdbqt", "")`. -/
def removePdbqt : List Char → List Char
  | '.' :: 'p' :: 'd' :: 'b' :: 'q' :: 't' :: rest => removePdbqt rest
  | c :: rest => c :: removePdbqt rest
  | [] => []

/-- The `"out-"` marker stripped from prepared-protein file names. -/
def outMarker : String := "out-"

/-- The `".pdbqt"` extension stripped from file names. -/
def pdbqtExt : String := ".pdbqt"

/-- `normChars` chains the two removals in the order the Python code applies
them: first `"out-"`, then `".pdbqt"`. -/
def normChars (l : List Char) : List Char := removePdbqt (removeOut l)

/-- Identity-key normalization of a file base name:
`name.replace("out-", "").replace(".pdbqt", "")`. -/
def normKey (s : String) : String := ⟨normChars s.data⟩

/-! ### Substring matching (Python's `in` operator)

The matcher associates records across stages with `if protein_name in line:`
(41.idock.py line 61, 42.vina.py line 91) and
`[lf for lf in ligand_files if protein_name in os.path.basename(lf)]`
(51.idock-Rescoring.py line 104, 52.vina-Rescoring.py line 119). -/

/-- `listContains pat hay` is true iff `pat` occurs contiguously in `hay`
(Python's `pat in hay` for strings, on the character-list level). -/
def listContains (pat : List Char) : List Char → Bool
  | [] => pat.isEmpty
  | c :: t => pat.isPrefixOf (c :: t) || listContains pat t

/-- Python's `pat in hay` on strings. -/
def strContains (hay pat : String) : Bool := listContains pat.data hay.data

/-- The center-file lines a protein is associated with:
`for line in lines: if protein_name in line:` (41.idock.py lines 60-61,
42.vina.py lines 90-91).  The association criterion is substring containment
of the protein's normalized key in the whole line. -/
def matchedCenterLines (proteinName : String) (lines : List String) : List String :=
  lines.filter (fun l => strContains l proteinName)

/-- The ligand result files a protein is associated with in the rescoring
stages: `[lf for lf in ligand_files if protein_name in os.path.basename(lf)]`
(51.idock-Rescoring.py line 104, 52.vina-Rescoring.py line 119); the list
entries stand for ligand-file base names. -/
def matchedLigands (proteinName : String) (ligandFiles : List String) : List String :=
  ligandFiles.filter (fun lf => strContains lf proteinName)

/-! ### Score extraction and fusion (51.idock-Rescoring.py lines 59-96)

A ligand-file line is modelled by whether it contains the marker
`"NORMALIZED FREE ENERGY PREDICTED BY IDOCK"` together with the score parsed
from it; a `.dat` line by its whitespace-column count and the value of
`float(cols[4])` (`none` models a `ValueError`). -/

/-- One line of a docked-ligand `.pdbqt` file, as far as score extraction is
concerned: `isScoreLine` models `"NORMALIZED FREE ENERGY PREDICTED BY IDOCK" in
line`, and `val` the score parsed from such a line. -/
structure SLine where
  isScoreLine : Bool
  val : ℚ
deriving DecidableEq

/-- One line of the scorer's `.dat` output file: `ncols = len(line.split())`
and `col4` the result of `float(cols[4])` (`none` when that raises
`ValueError`). -/
structure DatLine where
  ncols : ℕ
  col4 : Option ℚ
deriving DecidableEq

/-- Primary-score extraction (51.idock-Rescoring.py lines 68-73): collect the
score of every line containing the iDock energy marker. -/
def extractIdockScores (ls : List SLine) : List ℚ :=
  (ls.filter (fun l => l.isScoreLine)).map (fun l => l.val)

/-- Secondary-score extraction (51.idock-Rescoring.py lines 76-85), applied to
the `.dat` lines after the header: keep `float(cols[4])` of every line with
`len(cols) > 4`, skipping lines where the conversion raises `ValueError`. -/
def extractSfctScores (ds : List DatLine) : List ℚ :=
  ds.filterMap (fun d => if 4 < d.ncols then d.col4 else none)

/-- One row of the combined score table
(`MODEL_{idx},{idock},{sfct},{(idock + sfct) * 0.5}`). -/
structure ScoreRow where
  model : ℕ
  primary : ℚ
  secondary : ℚ
  combined : ℚ
deriving DecidableEq

/-- Combined-score table construction (51.idock-Rescoring.py lines 88-96):
only when both score lists are non-empty, one row per `zip`-pair, numbered
from 1, with combined score `(idock + sfct) * 0.5`; otherwise no table is
written (`none`). -/
def buildScoreTable (ps ss : List ℚ) : Option (List ScoreRow) :=
  if ps ≠ [] ∧ ss ≠ [] then
    some ((ps.zip ss).enum.map (fun pr => ⟨pr.1 + 1, pr.2.1, pr.2.2, (pr.2.1 + pr.2.2) * (1/2)⟩))
  else none

/-! ### The rescoring dispatch loop (51.idock-Rescoring.py lines 59-112)

`process_protein_ligand` runs the external scorer, then reads the ligand file
and the scorer's `.dat` output.  `open(dat_filename)` raises
`FileNotFoundError` when the scorer produced no `.dat` file, and `next(f)`
raises `StopIteration` on an empty one; neither is caught in the worker.
`process_all_files` submits every pair to a `ProcessPoolExecutor` and then
calls `future.result()` on each future in submission order, which re-raises
the first worker exception. -/

/-- The per-pair inputs `process_protein_ligand` reads: the docked-ligand file
lines and the scorer's `.dat` output (`none` when the scorer failed to produce
it). -/
structure RescoreItem where
  ligLines : List SLine
  datContent : Option (List DatLine)
deriving DecidableEq

/-- `process_protein_ligand` (51.idock-Rescoring.py lines 59-96) as a fallible
computation: an uncaught exception is an `Except.error`, a normal return
carries the (possibly absent) combined score table. -/
def processProteinLigand (it : RescoreItem) : Except String (Option (List ScoreRow)) :=
  match it.datContent with
  | none => Except.error "FileNotFoundError"
  | some [] => Except.error "StopIteration"
  | some (_ :: rest) =>
      Except.ok (buildScoreTable (extractIdockScores it.ligLines) (extractSfctScores rest))

/-- The result-collection loop `for future in futures: future.result()`
(51.idock-Rescoring.py lines 108-109, 52.vina-Rescoring.py lines 125-126):
the first stored exception is re-raised; otherwise the loop returns normally. -/
def collectFutures {α : Type} : List (Except String α) → Except String Unit
  | [] => Except.ok ()
  | Except.ok _ :: rest => collectFutures rest
  | Except.error e :: _ => Except.error e

/-- `process_all_files` restricted to its dispatch loop: every matched pair is
submitted (so every item's computation runs), then results are collected in
submission order. -/
def processAllFiles (batch : List RescoreItem) : Except String Unit :=
  collectFutures (batch.map processProteinLigand)

/-! ### Centroid aggregation (3.site-prediction.py lines 23-45)

`calculate_average_coordinates` scans the structure file, accumulates the
coordinate sums and the atom count over the lines starting with `ATOM`, and
returns the three averages rounded to 3 decimals, or `None` when there is no
atom.  A line is modelled by its `ATOM` flag and its three parsed
coordinates. -/

/-- One line of a pocket structure file: `isAtom` models
`line.startswith('ATOM')`, and `x`, `y`, `z` the coordinates parsed from
columns 30-38, 38-46, 46-54. -/
structure PdbLine where
  isAtom : Bool
  x : ℚ
  y : ℚ
  z : ℚ
deriving DecidableEq

/-- Rounding to 3 decimal places, `round(v, 3)`.  Both the code model and the
specification-side centroid use this same function, so the tie-breaking rule
of Python's `round` is immaterial to the theorems below. -/
def round3 (q : ℚ) : ℚ := (round (q * 1000) : ℤ) / 1000

/-- The accumulator of `calculate_average_coordinates`: `coordinates_sum` and
`num_atoms`. -/
structure AvgAcc where
  sx : ℚ
  sy : ℚ
  sz : ℚ
  n : ℕ
deriving DecidableEq

/-- One loop iteration of `calculate_average_coordinates` (lines 28-36): on an
`ATOM` line add the coordinates to the sums and increment the count, otherwise
leave the accumulator unchanged. -/
def avgStep (acc : AvgAcc) (l : PdbLine) : AvgAcc :=
  if l.isAtom then ⟨acc.sx + l.x, acc.sy + l.y, acc.sz + l.z, acc.n + 1⟩ else acc

/-- `calculate_average_coordinates` (3.site-prediction.py lines 23-45): fold
the accumulation loop over the file's lines, return `None` when `num_atoms ==
0`, else the three rounded averages. -/
def calculateAverageCoordinates (ls : List PdbLine) : Option (ℚ × ℚ × ℚ) :=
  let r := ls.foldl avgStep ⟨0, 0, 0, 0⟩
  if r.n = 0 then none
  else some (round3 (r.sx / r.n), round3 (r.sy / r.n), round3 (r.sz / r.n))

/-- The `ATOM` lines of a file. -/
def atomsOf (ls : List PdbLine) : List PdbLine := ls.filter (fun l => l.isAtom)

/-- Modelled from the spec's aggregation contract for comparison with the
code: the centroid is the arithmetic mean of all atomic coordinates in each
dimension, rounded to 3 decimals, absent when there is no atom. -/
def centroidSpec (ls : List PdbLine) : Option (ℚ × ℚ × ℚ) :=
  if atomsOf ls = [] then none
  else some
    (round3 (((atomsOf ls).map (fun l => l.x)).sum / (atomsOf ls).length),
     round3 (((atomsOf ls).map (fun l => l.y)).sum / (atomsOf ls).length),
     round3 (((atomsOf ls).map (fun l => l.z)).sum / (atomsOf ls).length))

/-! ### Pocket records and the coordinate table (3.site-prediction.py) -/

/-- A decidable lexicographic comparison on character lists by code point,
the order in which pandas' `sort_values` compares the `PDB_File` strings. -/
def charListLeb : List Char → List Char → Bool
  | [], _ => true
  | _ :: _, [] => false
  | a :: as, b :: bs =>
      if a.toNat < b.toNat then true
      else if b.toNat < a.toNat then false
      else charListLeb as bs

/-- Lexicographic string comparison by code point. -/
def strLeb (s t : String) : Bool := charListLeb s.data t.data

/-- One row of the aggregated coordinate table (`PDB_File,X,Y,Z`). -/
structure CRow where
  pdbFile : String
  x : ℚ
  y : ℚ
  z : ℚ
deriving DecidableEq

/-- Row comparison of the final `df.sort_values('PDB_File')`: by the
`PDB_File` identity key. -/
def rowLe (a b : CRow) : Prop := strLeb a.pdbFile b.pdbFile = true

instance : DecidableRel rowLe := fun a b =>
  inferInstanceAs (Decidable (strLeb a.pdbFile b.pdbFile = true))

/-- Sorting the coordinate table by the `PDB_File` key
(`df.sort_values('PDB_File')`, 3.site-prediction.py line 170). -/
def sortByKey (rows : List CRow) : List CRow := List.insertionSort rowLe rows

/-- The aggregation of 3.site-prediction.py lines 162-173: the per-item row
lists are concatenated in the order the pool delivers them
(`all_results.extend(result_list)`) and the concatenation is sorted by
`PDB_File`. -/
def aggregateTable (results : List (List CRow)) : List CRow :=
  sortByKey results.flatten

/-- One pocket candidate as `process_one_pdb` handles it: the `PDB_File` key
derived from its save name, whether `save_pocket2pdb` succeeded, and the lines
of the saved pocket structure file. -/
structure Pocket where
  key : String
  saveOk : Bool
  lines : List PdbLine

/-- The row-building loop of `process_one_pdb` (3.site-prediction.py lines
104-125): a pocket contributes a row iff its save succeeded and
`calculate_average_coordinates` returned coordinates. -/
def buildPocketResults (ps : List Pocket) : List CRow :=
  ps.filterMap (fun p =>
    if p.saveOk then
      (calculateAverageCoordinates p.lines).map (fun c => ⟨p.key, c.1, c.2.1, c.2.2⟩)
    else none)

/-- One row of the pocket predictor's `_predictions.csv`: the
`' residue_ids'` and `'   score'` columns, in the predictor's rank order. -/
structure CsvRow where
  residues : String
  score : String

/-- `os.path.splitext(s)[0]` on the character-list level: drop the last
`'.'`-separated extension, or return the list unchanged when there is no
dot. -/
def stripLastExt (l : List Char) : List Char :=
  match l.reverse.dropWhile (fun c => c ≠ '.') with
  | [] => l
  | _ :: rest => rest.reverse

/-- `os.path.splitext(s)[0]` on strings. -/
def splitextStem (s : String) : String := ⟨stripLastExt s.data⟩

/-- The save name `f"pocket_{score}_{pdbname}"` (3.site-prediction.py line
114). -/
def pocketSaveName (score pdbname : String) : String :=
  "pocket_" ++ score ++ "_" ++ pdbname

/-- The pocket candidates retained for one protein (3.site-prediction.py lines
59-61 and 104-116): the first `min(3, len)` ranked predictor rows, in rank
order, each keyed by `os.path.splitext(f"pocket_{score}_{pdbname}")[0]`.
`saveOk i` models the success of `save_pocket2pdb` for candidate `i` and
`pocketLines i` the content of its saved file. -/
def pocketsOfCsv (pdbname : String) (csv : List CsvRow) (saveOk : ℕ → Bool)
    (pocketLines : ℕ → List PdbLine) : List Pocket :=
  (csv.take 3).enum.map (fun ir =>
    ⟨splitextStem (pocketSaveName ir.2.score pdbname), saveOk ir.1, pocketLines ir.1⟩)

/-- `process_one_pdb` (3.site-prediction.py lines 95-131) restricted to its
result building: the rows contributed by the retained pocket candidates. -/
def processOnePdb (pdbname : String) (csv : List CsvRow) (saveOk : ℕ → Bool)
    (pocketLines : ℕ → List PdbLine) : List CRow :=
  buildPocketResults (pocketsOfCsv pdbname csv saveOk pocketLines)

/-! ### Docking logs (41.idock.py lines 47-92, 42.vina.py lines 78-128)

The idock script writes the header once at startup and each worker appends one
row per protein; the status starts as `"No Match"` and is updated to
`"Success"`/`"Failed"` per matched, well-formed center line according to the
docking subprocess's exit status (modelled by the oracle `dockOk`).  The vina
script appends one row per protein with status `"Success"` when any center
line matched and `"No Matching Center Coordinates"` otherwise, and never
writes a header. -/

/-- One iteration of the center-line loop of 41.idock.py lines 60-84 acting on
the status: a non-matching line leaves the status, a matching line with a
field count other than 4 is skipped (`continue`), and a matching well-formed
line sets the status from the docking subprocess's outcome. -/
def idockStatusStep (name : String) (dockOk : ℕ → Bool) (st : String) (il : ℕ × String) :
    String :=
  if strContains il.2 name then
    if (il.2.splitOn ",").length ≠ 4 then st
    else if dockOk il.1 then "Success" else "Failed"
  else st

/-- The final status of one protein in 41.idock.py: fold the loop over the
indexed center lines starting from `"No Match"`. -/
def idockStatus (name : String) (dockOk : ℕ → Bool) (lines : List String) : String :=
  (lines.enum).foldl (idockStatusStep name dockOk) "No Match"

/-- A log row `f"{protein_name},{elapsed_time:.2f},{status}"`. -/
def mkLogRow (name time status : String) : String :=
  name ++ "," ++ time ++ "," ++ status

/-- The docking log of 41.idock.py: the header written at startup (lines
49-50) followed by one appended row per processed protein (lines 90-91);
`elapsed` gives each protein's formatted elapsed time. -/
def idockLog (proteins lines : List String) (dockOk : String → ℕ → Bool)
    (elapsed : String → String) : List String :=
  "Protein Name,Time (s),Status" ::
    proteins.map (fun pf =>
      mkLogRow (normKey pf) (elapsed pf) (idockStatus (normKey pf) (dockOk pf) lines))

/-- The status of one protein in 42.vina.py (line 123):
`"Success" if matched else "No Matching Center Coordinates"`. -/
def vinaStatus (name : String) (lines : List String) : String :=
  if lines.any (fun l => strContains l name) then "Success"
  else "No Matching Center Coordinates"

/-- The docking log of 42.vina.py (lines 126-128): one appended row per
processed protein and no header line anywhere. -/
def vinaLog (proteins lines : List String) (elapsed : String → String) : List String :=
  proteins.map (fun pf => mkLogRow (normKey pf) (elapsed pf) (vinaStatus (normKey pf) lines))

/-! ## Theorems -/

/-! ### C1, C2: identity-key matching and normalization -/

lemma listContains_cons_false {pat : List Char} {c : Char} {t : List Char}
    (h : listContains pat (c :: t) = false) :
    pat.isPrefixOf (c :: t) = false ∧ listContains pat t = false := by
  simpa [listContains, Bool.or_eq_false_iff] using h

lemma removeOut_eq_self : ∀ {l : List Char},
    listContains outMarker.data l = false → removeOut l = l := by
  intro l
  induction l using removeOut.induct with
  | case1 rest ih =>
      intro h
      exfalso
      have hp := (listContains_cons_false h).1
      simp [outMarker, List.isPrefixOf] at hp
  | case2 c rest hne ih =>
      intro h
      have hrec := ih (listContains_cons_false h).2
      conv_lhs => rw [removeOut.eq_def]
      split
      · rename_i rest1 heq
        exfalso
        injection heq with hc ht
        exact hne rest1 hc ht
      · rename_i c2 rest2 hne2 heq
        injection heq with hc ht
        subst hc
        subst ht
        simp [hrec]
      · rename_i heq
        exact absurd heq (by simp)
  | case3 =>
      intro _
      rfl

lemma removePdbqt_eq_self : ∀ {l : List Char},
    listContains pdbqtExt.data l = false → removePdbqt l = l := by
  intro l
  induction l using removePdbqt.induct with
  | case1 rest ih =>
      intro h
      exfalso
      have hp := (listContains_cons_false h).1
      simp [pdbqtExt, List.isPrefixOf] at hp
  | case2 c rest hne ih =>
      intro h
      have hrec := ih (listContains_cons_false h).2
      conv_lhs => rw [removePdbqt.eq_def]
      split
      · rename_i rest1 heq
        exfalso
        injection heq with hc ht
        exact hne rest1 hc ht
      · rename_i c2 rest2 hne2 heq
        injection heq with hc ht
        subst hc
        subst ht
        simp [hrec]
      · rename_i heq
        exact absurd heq (by simp)
  | case3 =>
      intro _
      rfl

/-- C1 counterexample: the matcher associates by substring containment, not by
exact equality of normalized identity keys.  The work item derived from
`abc.pdbqt` has normalized key `abc`; the center record for the longer-named
protein `abcd` (line `abcd,1.0,2.0,3.0`) and the ligand result file
`abcd_ligand_1` are nevertheless both associated with it, although the keys
`abc` and `abcd` differ and `abc` is a proper substring of `abcd`. -/
theorem c1_counterexample :
    normKey "abc.pdbqt" = "abc" ∧
    matchedCenterLines "abc" ["abcd,1.0,2.0,3.0"] = ["abcd,1.0,2.0,3.0"] ∧
    matchedLigands "abc" ["abcd_ligand_1"] = ["abcd_ligand_1"] ∧
    ("abc" : String) ≠ "abcd" := by
  decide

/-- C1 amended: the Cross-Stage Identity Matcher associates a work item with a
prior-stage record if and only if the item's normalized identity key occurs as
a substring of the record (of the whole center-file line in the docking
scripts, of the ligand file's base name in the rescoring scripts).  Exact key
equality is sufficient but not necessary: a record for a longer name is also
associated with a shorter-named protein whose key is a substring of it. -/
theorem c1_amended (name l : String) (lines ligands : List String) :
    (l ∈ matchedCenterLines name lines ↔ l ∈ lines ∧ strContains l name = true) ∧
    (l ∈ matchedLigands name ligands ↔ l ∈ ligands ∧ strContains l name = true) :=
  ⟨List.mem_filter, List.mem_filter⟩

/-- C2 counterexample: normalization is not idempotent.  Removing the `out-`
occurrences of `ouout-t-` splices a new `out-` occurrence together, so one
application yields `out-` and a second application yields the empty string. -/
theorem c2_counterexample :
    normKey "ouout-t-" = "out-" ∧
    normKey (normKey "ouout-t-") = "" ∧
    normKey (normKey "ouout-t-") ≠ normKey "ouout-t-" := by
  decide

/-- C2 amended: normalization is idempotent on every string whose normalized
form contains no further `out-` marker and no further `.pdbqt` extension (in
particular on every ordinary file base name, where one removal pass leaves no
marker behind); in general a second application can differ, as removing
occurrences may create new ones. -/
theorem c2_amended (s : String)
    (h1 : strContains (normKey s) outMarker = false)
    (h2 : strContains (normKey s) pdbqtExt = false) :
    normKey (normKey s) = normKey s := by
  have hout : removeOut (normKey s).data = (normKey s).data :=
    removeOut_eq_self h1
  have hpdb : removePdbqt (normKey s).data = (normKey s).data :=
    removePdbqt_eq_self h2
  show (⟨removePdbqt (removeOut (normKey s).data)⟩ : String) = normKey s
  rw [hout, hpdb]

/-- C2 witness: the amended idempotence at the concrete base name
`out-abc.pdbqt`. -/
theorem c2_witness : normKey (normKey "out-abc.pdbqt") = normKey "out-abc.pdbqt" :=
  c2_amended "out-abc.pdbqt" (by decide) (by decide)

/-! ### C3: error propagation out of the rescoring dispatch loop -/

lemma collectFutures_error_of_mem {α : Type} {rs : List (Except String α)} {e : String}
    (h : Except.error e ∈ rs) : ∃ e2, collectFutures rs = Except.error e2 := by
  induction rs with
  | nil => cases h
  | cons r rest ih =>
      match r, h with
      | Except.error e1, _ => exact ⟨e1, rfl⟩
      | Except.ok a, h =>
          have hm : Except.error e ∈ rest := by
            cases h with
            | tail _ hm => exact hm
          simpa [collectFutures] using ih hm

/-- C3 counterexample: an item error does propagate out of the dispatch loop.
In the batch below the first pair's scorer produced no `.dat` file, so its
worker raises `FileNotFoundError`; `process_all_files` re-raises it through
`future.result()` instead of converting it to a per-item outcome, even though
a second, healthy item is present in the batch. -/
theorem c3_counterexample :
    processAllFiles
      [⟨[⟨true, -7⟩], none⟩, ⟨[⟨true, -7⟩], some [⟨6, none⟩, ⟨6, some 2⟩]⟩] =
      Except.error "FileNotFoundError" := rfl

/-- C3 amended: an error raised while processing one item (for example the
external scorer failing to produce its `.dat` output, which makes the worker
raise `FileNotFoundError`) is NOT converted to a per-item outcome: every batch
containing an erroring item makes the dispatch loop itself raise, because
`future.result()` re-raises the stored exception.  All items of the batch are
still submitted and executed before collection begins, but the collection loop
aborts at the first error. -/
theorem c3_amended (batch : List RescoreItem) (it : RescoreItem) (hmem : it ∈ batch) :
    (it.datContent = none → processProteinLigand it = Except.error "FileNotFoundError") ∧
    (∀ e, processProteinLigand it = Except.error e →
      ∃ e2, processAllFiles batch = Except.error e2) := by
  constructor
  · intro hd
    simp [processProteinLigand, hd]
  · intro e he
    apply collectFutures_error_of_mem (e := e)
    rw [← he]
    exact List.mem_map_of_mem processProteinLigand hmem

/-- C3 witness: the amended statement at a concrete one-item batch whose
scorer output is missing. -/
theorem c3_witness :
    processProteinLigand ⟨[], none⟩ = Except.error "FileNotFoundError" ∧
    ∃ e2, processAllFiles [(⟨[], none⟩ : RescoreItem)] = Except.error e2 := by
  have h := c3_amended [(⟨[], none⟩ : RescoreItem)] ⟨[], none⟩ (by simp)
  exact ⟨h.1 rfl, h.2 "FileNotFoundError" (h.1 rfl)⟩

/-! ### C4, C5: score fusion -/

lemma mem_buildScoreTable {ps ss : List ℚ} {t : List ScoreRow} {r : ScoreRow}
    (ht : buildScoreTable ps ss = some t) (hr : r ∈ t) :
    ∃ i, i < ps.length ∧ i < ss.length ∧ r.model = i + 1 ∧
      ps[i]? = some r.primary ∧ ss[i]? = some r.secondary ∧
      r.combined = (r.primary + r.secondary) * (1/2) := by
  unfold buildScoreTable at ht
  split at ht
  · injection ht with ht
    subst ht
    obtain ⟨pr, hpr, hre⟩ := List.mem_map.mp hr
    have hz : (ps.zip ss)[pr.1]? = some pr.2 := List.mem_enum_iff_getElem?.mp hpr
    rw [List.getElem?_zip_eq_some] at hz
    obtain ⟨h1, _⟩ := List.getElem?_eq_some.mp hz.1
    obtain ⟨h2, _⟩ := List.getElem?_eq_some.mp hz.2
    subst hre
    exact ⟨pr.1, h1, h2, rfl, hz.1, hz.2, rfl⟩
  · cases ht

/-- C4: every row of the combined score table carries both raw scores (the
pose's primary docking score and its secondary rescoring score, at the row's
pose index in the respective extracted lists) and its combined score is their
unweighted arithmetic mean. -/
theorem c4_combined_is_mean (ps ss : List ℚ) (t : List ScoreRow) (r : ScoreRow)
    (ht : buildScoreTable ps ss = some t) (hr : r ∈ t) :
    r.combined = (r.primary + r.secondary) / 2 ∧
    ∃ i, i < ps.length ∧ i < ss.length ∧ r.model = i + 1 ∧
      ps[i]? = some r.primary ∧ ss[i]? = some r.secondary := by
  obtain ⟨i, h1, h2, h3, h4, h5, h6⟩ := mem_buildScoreTable ht hr
  refine ⟨by rw [h6]; ring, i, h1, h2, h3, h4, h5⟩

/-- C4 witness: the fusion law at the concrete score lists `[4]` and `[2]`,
whose table is the single row `MODEL_1,4,2,3`. -/
theorem c4_witness :
    (⟨1, 4, 2, 3⟩ : ScoreRow).combined =
      ((⟨1, 4, 2, 3⟩ : ScoreRow).primary + (⟨1, 4, 2, 3⟩ : ScoreRow).secondary) / 2 ∧
    ∃ i, i < [(4 : ℚ)].length ∧ i < [(2 : ℚ)].length ∧
      (⟨1, 4, 2, 3⟩ : ScoreRow).model = i + 1 ∧
      [(4 : ℚ)][i]? = some (⟨1, 4, 2, 3⟩ : ScoreRow).primary ∧
      [(2 : ℚ)][i]? = some (⟨1, 4, 2, 3⟩ : ScoreRow).secondary :=
  c4_combined_is_mean [4] [2] [⟨1, 4, 2, 3⟩] ⟨1, 4, 2, 3⟩
    (by norm_num [buildScoreTable]) (by simp)

/-- C5: a pose for which only one of the two raw scores exists (its index is
covered by exactly one of the extracted score lists) never appears in the
combined score table: no emitted row carries that pose's model number. -/
theorem c5_partial_pair_excluded (ps ss : List ℚ) (i : ℕ)
    (h : (i < ps.length ∧ ss.length ≤ i) ∨ (i < ss.length ∧ ps.length ≤ i)) :
    ∀ r ∈ (buildScoreTable ps ss).getD [], r.model ≠ i + 1 := by
  intro r hr hmodel
  cases hb : buildScoreTable ps ss with
  | none => rw [hb] at hr; cases hr
  | some t =>
      rw [hb] at hr
      obtain ⟨j, hj1, hj2, hj3, _, _, _⟩ := mem_buildScoreTable hb hr
      have hji : j = i := by
        rw [hj3] at hmodel
        omega
      subst hji
      cases h with
      | inl hcase => omega
      | inr hcase => omega

/-- C5 witness: with primary scores `[4, 5]` and secondary scores `[2]`, pose
2 has only a primary score, and the table's single row `MODEL_1,4,2,3` indeed
does not carry model number 2. -/
theorem c5_witness : (⟨1, 4, 2, 3⟩ : ScoreRow).model ≠ 2 :=
  c5_partial_pair_excluded [4, 5] [2] 1 (Or.inl (by simp))
    ⟨1, 4, 2, 3⟩ (by norm_num [buildScoreTable]; simp)

/-! ### C7, C10: centroid aggregation -/

lemma foldl_avgStep (ls : List PdbLine) : ∀ a : AvgAcc,
    ls.foldl avgStep a =
      ⟨a.sx + ((atomsOf ls).map (fun l => l.x)).sum,
       a.sy + ((atomsOf ls).map (fun l => l.y)).sum,
       a.sz + ((atomsOf ls).map (fun l => l.z)).sum,
       a.n + (atomsOf ls).length⟩ := by
  induction ls with
  | nil => intro a; simp [atomsOf]
  | cons l t ih =>
      intro a
      by_cases hl : l.isAtom = true
      · simp only [List.foldl_cons, avgStep, hl, if_true, ih, atomsOf, List.filter_cons,
          List.map_cons, List.sum_cons, List.length_cons]
        simp only [AvgAcc.mk.injEq]
        refine ⟨by ring, by ring, by ring, by omega⟩
      · simp only [List.foldl_cons, avgStep, hl, if_false, ih, atomsOf, List.filter_cons,
          Bool.false_eq_true]

/-- C7: the reported pocket center is the arithmetic mean of the `ATOM`
coordinates in each dimension, rounded to 3 decimal places — the incremental
sum-and-count loop of `calculate_average_coordinates` computes exactly the
specification's rounded centroid (and both are absent exactly when the file
has no `ATOM` record). -/
theorem c7_centroid (ls : List PdbLine) :
    calculateAverageCoordinates ls = centroidSpec ls := by
  unfold calculateAverageCoordinates centroidSpec
  rw [foldl_avgStep]
  by_cases h : atomsOf ls = []
  · simp [h]
  · have hlen : (atomsOf ls).length ≠ 0 := by
      simpa [List.length_eq_zero] using h
    simp [h, hlen]

/-- C10: the centroid computation is total on atom-free input — a structure
file with zero `ATOM` records yields `none` (no division by zero is
attempted), and such a pocket contributes no row to the coordinate table. -/
theorem c10_no_atoms (p : Pocket) (rest : List Pocket)
    (h : atomsOf p.lines = []) :
    calculateAverageCoordinates p.lines = none ∧
    buildPocketResults (p :: rest) = buildPocketResults rest := by
  have hnone : calculateAverageCoordinates p.lines = none := by
    unfold calculateAverageCoordinates
    rw [foldl_avgStep]
    simp [h]
  refine ⟨hnone, ?_⟩
  unfold buildPocketResults
  rw [List.filterMap_cons]
  rw [show (if p.saveOk then
      (calculateAverageCoordinates p.lines).map
        (fun c => (⟨p.key, c.1, c.2.1, c.2.2⟩ : CRow))
    else none) = none by rw [hnone]; simp]

/-- C10 witness: a pocket whose only line is not an `ATOM` record yields no
coordinates and contributes no row. -/
theorem c10_witness :
    calculateAverageCoordinates [⟨false, 0, 0, 0⟩] = none ∧
    buildPocketResults [⟨"x", true, [⟨false, 0, 0, 0⟩]⟩] = buildPocketResults [] :=
  c10_no_atoms ⟨"x", true, [⟨false, 0, 0, 0⟩]⟩ [] (by decide)

/-! ### C6, C9: the aggregated coordinate table and its ordering -/

lemma char_eq_of_toNat_eq {a b : Char} (h : a.toNat = b.toNat) : a = b :=
  Char.ext (UInt32.ext h)

lemma charListLeb_total : ∀ x y : List Char, charListLeb x y = true ∨ charListLeb y x = true := by
  intro x
  induction x with
  | nil => intro y; exact Or.inl rfl
  | cons a as ih =>
      intro y
      cases y with
      | nil => exact Or.inr rfl
      | cons b bs =>
          rcases Nat.lt_trichotomy a.toNat b.toNat with h | h | h
          · left
            simp [charListLeb, h]
          · rcases ih bs with h2 | h2
            · left
              simp [charListLeb, h, h2]
            · right
              simp [charListLeb, h.symm, h2]
          · right
            simp [charListLeb, h]

lemma charListLeb_trans : ∀ x y z : List Char,
    charListLeb x y = true → charListLeb y z = true → charListLeb x z = true := by
  intro x
  induction x with
  | nil => intro y z _ _; rfl
  | cons a as ih =>
      intro y z hxy hyz
      cases y with
      | nil => simp [charListLeb] at hxy
      | cons b bs =>
          cases z with
          | nil => simp [charListLeb] at hyz
          | cons c cs =>
              simp only [charListLeb] at hxy hyz ⊢
              by_cases hab : a.toNat < b.toNat
              · by_cases hbc : b.toNat < c.toNat
                · simp [Nat.lt_trans hab hbc]
                · by_cases hcb : c.toNat < b.toNat
                  · simp [hbc, hcb] at hyz
                  · have : b.toNat = c.toNat := by omega
                    simp [this ▸ hab]
              · by_cases hba : b.toNat < a.toNat
                · simp [hab, hba] at hxy
                · have hab2 : a.toNat = b.toNat := by omega
                  by_cases hbc : b.toNat < c.toNat
                  · simp [hab2 ▸ hbc]
                  · by_cases hcb : c.toNat < b.toNat
                    · simp [hbc, hcb] at hyz
                    · have hbc2 : b.toNat = c.toNat := by omega
                      simp [hab, hba, hab2] at hxy
                      simp [hbc, hcb] at hyz
                      have hac : ¬ a.toNat < c.toNat := by omega
                      have hca : ¬ c.toNat < a.toNat := by omega
                      simp [hac, hca]
                      exact ih bs cs hxy hyz

lemma charListLeb_antisymm : ∀ x y : List Char,
    charListLeb x y = true → charListLeb y x = true → x = y := by
  intro x
  induction x with
  | nil =>
      intro y _ hyx
      cases y with
      | nil => rfl
      | cons b bs => simp [charListLeb] at hyx
  | cons a as ih =>
      intro y hxy hyx
      cases y with
      | nil => simp [charListLeb] at hxy
      | cons b bs =>
          simp only [charListLeb] at hxy hyx
          by_cases hab : a.toNat < b.toNat
          · have hba : ¬ b.toNat < a.toNat := by omega
            simp [hab, hba] at hyx
          · by_cases hba : b.toNat < a.toNat
            · simp [hab, hba] at hxy
            · have heq : a = b := char_eq_of_toNat_eq (by omega)
              simp [hab, hba] at hxy hyx
              rw [heq, ih bs hxy hyx]

lemma string_eq_of_data_eq {s t : String} (h : s.data = t.data) : s = t := by
  cases s
  cases t
  exact congrArg String.mk h

instance : IsTotal CRow rowLe :=
  ⟨fun a b => charListLeb_total a.pdbFile.data b.pdbFile.data⟩

instance : IsTrans CRow rowLe :=
  ⟨fun a b c => charListLeb_trans a.pdbFile.data b.pdbFile.data c.pdbFile.data⟩

lemma rowLe_key_antisymm {a b : CRow} (h1 : rowLe a b) (h2 : rowLe b a) :
    a.pdbFile = b.pdbFile :=
  string_eq_of_data_eq (charListLeb_antisymm _ _ h1 h2)

lemma flatten_perm {α : Type} {l1 l2 : List (List α)} (h : l1.Perm l2) :
    l1.flatten.Perm l2.flatten := by
  induction h with
  | nil => exact List.Perm.refl _
  | cons x _ ih => simpa using ih.append_left x
  | swap x y l =>
      simp only [List.flatten_cons, ← List.append_assoc]
      exact List.Perm.append_right _ List.perm_append_comm
  | trans _ _ ih1 ih2 => exact ih1.trans ih2

lemma eq_of_sorted_perm_nodup_keys : ∀ {l1 l2 : List CRow}, l1.Perm l2 →
    l1.Sorted rowLe → l2.Sorted rowLe →
    (l1.map (fun r => r.pdbFile)).Nodup → l1 = l2 := by
  intro l1
  induction l1 with
  | nil =>
      intro l2 hp _ _ _
      exact (hp.nil_eq).symm ▸ rfl
  | cons a t1 ih =>
      intro l2 hp hs1 hs2 hnd
      cases l2 with
      | nil => exact absurd hp.symm.nil_eq (by simp)
      | cons b t2 =>
          have hab : a = b := by
            by_contra hne
            have hamem : a ∈ b :: t2 := hp.subset (List.mem_cons_self a t1)
            have hat2 : a ∈ t2 := by
              cases hamem with
              | head => exact absurd rfl hne
              | tail _ hm => exact hm
            have hbmem : b ∈ a :: t1 := hp.symm.subset (List.mem_cons_self b t2)
            have hbt1 : b ∈ t1 := by
              cases hbmem with
              | head => exact absurd rfl (fun hh => hne hh.symm)
              | tail _ hm => exact hm
            have h1 : rowLe a b := (List.sorted_cons.mp hs1).1 b hbt1
            have h2 : rowLe b a := (List.sorted_cons.mp hs2).1 a hat2
            have hkey : a.pdbFile = b.pdbFile := rowLe_key_antisymm h1 h2
            have : a.pdbFile ∈ t1.map (fun r => r.pdbFile) := by
              rw [hkey]
              exact List.mem_map_of_mem _ hbt1
            exact (List.nodup_cons.mp hnd).1 this
          subst hab
          have hp2 : t1.Perm t2 := (List.perm_cons a).mp hp
          rw [ih hp2 (List.sorted_cons.mp hs1).2 (List.sorted_cons.mp hs2).2
            (List.nodup_cons.mp hnd).2]

/-- C6 counterexample: with duplicate `PDB_File` keys (two pocket records both
keyed `k`, as arises when two pockets of one protein tie on the predicted
score), two completion orders of the same per-item results yield different
aggregated tables: the equal-key rows keep their arrival order, so their
coordinate payloads appear in different positions. -/
theorem c6_counterexample :
    aggregateTable [[⟨"k", 1, 0, 0⟩], [⟨"k", 2, 0, 0⟩]] ≠
      aggregateTable [[⟨"k", 2, 0, 0⟩], [⟨"k", 1, 0, 0⟩]] := by
  decide

/-- C6 amended: provided the concatenated per-item records carry pairwise
distinct `PDB_File` identity keys, the aggregated coordinate table is
identical for every completion order (permutation) of the per-item results,
and it is sorted by the `PDB_File` key.  With duplicate keys the relative
order of equal-key rows can depend on completion order. -/
theorem c6_amended (rs1 rs2 : List (List CRow)) (hperm : rs1.Perm rs2)
    (hnd : (rs1.flatten.map (fun r => r.pdbFile)).Nodup) :
    aggregateTable rs2 = aggregateTable rs1 ∧
    (aggregateTable rs1).Sorted rowLe := by
  have hs1 : (aggregateTable rs1).Sorted rowLe := List.sorted_insertionSort rowLe _
  have hs2 : (aggregateTable rs2).Sorted rowLe := List.sorted_insertionSort rowLe _
  have hp : (aggregateTable rs2).Perm (aggregateTable rs1) :=
    ((List.perm_insertionSort rowLe _).trans (flatten_perm hperm).symm).trans
      (List.perm_insertionSort rowLe _).symm
  have hnd2 : ((aggregateTable rs2).map (fun r => r.pdbFile)).Nodup := by
    refine (List.Perm.nodup_iff ?_).mpr hnd
    exact (hp.trans (List.perm_insertionSort rowLe _)).map _
  exact ⟨eq_of_sorted_perm_nodup_keys hp hs2 hs1 hnd2, hs1⟩

/-- C6 witness: two distinct-keyed per-item records aggregate to the same
sorted table under both completion orders. -/
theorem c6_witness :
    aggregateTable [[⟨"b", 2, 0, 0⟩], [⟨"a", 1, 0, 0⟩]] =
      aggregateTable [[⟨"a", 1, 0, 0⟩], [⟨"b", 2, 0, 0⟩]] ∧
    (aggregateTable [[⟨"a", 1, 0, 0⟩], [⟨"b", 2, 0, 0⟩]]).Sorted rowLe :=
  c6_amended [[⟨"a", 1, 0, 0⟩], [⟨"b", 2, 0, 0⟩]] [[⟨"b", 2, 0, 0⟩], [⟨"a", 1, 0, 0⟩]]
    (List.Perm.swap _ _ _) (by decide)

lemma stripLastExt_append_pdbExt (l : List Char) :
    stripLastExt (l ++ ('.' :: 'p' :: 'd' :: 'b' :: [])) = l := by
  unfold stripLastExt
  rw [List.reverse_append]
  simp [List.dropWhile]

lemma splitextStem_pocketSaveName (score stem : String) :
    splitextStem (pocketSaveName score (stem ++ ".pdb")) = "pocket_" ++ score ++ "_" ++ stem := by
  apply string_eq_of_data_eq
  show stripLastExt (pocketSaveName score (stem ++ ".pdb")).data =
    ("pocket_" ++ score ++ "_" ++ stem).data
  have hdata : (pocketSaveName score (stem ++ ".pdb")).data =
      ("pocket_" ++ score ++ "_" ++ stem).data ++ ('.' :: 'p' :: 'd' :: 'b' :: []) := by
    simp [pocketSaveName, String.data_append]
  rw [hdata, stripLastExt_append_pdbExt]

lemma enum_map_snd_comp {α β : Type} (l : List α) (f : α → β) :
    l.enum.map (fun ir => f ir.2) = l.map f := by
  rw [show (fun ir : ℕ × α => f ir.2) = f ∘ Prod.snd from rfl, ← List.map_map,
    List.enum_map_snd]

/-- C9 counterexample: the ordering part of the claim fails.  In the claim's
own scenario — protein `proteinA` with three ranked pockets scored `0.9`,
`0.7`, `0.5` — the final coordinate table lists the three rows in ascending
lexicographic key order `pocket_0.5_proteinA`, `pocket_0.7_proteinA`,
`pocket_0.9_proteinA`, not in the claimed descending-score order. -/
theorem c9_counterexample :
    (aggregateTable [processOnePdb "proteinA.pdb"
        [⟨"A_1", "0.9"⟩, ⟨"A_2", "0.7"⟩, ⟨"A_3", "0.5"⟩]
        (fun _ => true) (fun _ => [⟨true, 1, 2, 3⟩])]).map (fun r => r.pdbFile) =
      ["pocket_0.5_proteinA", "pocket_0.7_proteinA", "pocket_0.9_proteinA"] ∧
    (["pocket_0.5_proteinA", "pocket_0.7_proteinA", "pocket_0.9_proteinA"] : List String) ≠
      ["pocket_0.9_proteinA", "pocket_0.7_proteinA", "pocket_0.5_proteinA"] := by
  decide

/-- C9 amended: for every protein at most the top 3 ranked pocket candidates
are retained; the retained records are keyed `pocket_<score>_<protein>` and
listed in the predictor's rank order in the per-item result list (records are
appended, never overwritten); the final coordinate table is sorted by the
`PDB_File` key, i.e. in ascending lexicographic order of the discriminator
string rather than by descending predicted score. -/
theorem c9_amended (stem : String) (csv : List CsvRow) (saveOk : ℕ → Bool)
    (pl : ℕ → List PdbLine) :
    (pocketsOfCsv (stem ++ ".pdb") csv saveOk pl).length = min 3 csv.length ∧
    (pocketsOfCsv (stem ++ ".pdb") csv saveOk pl).map (fun p => p.key) =
      (csv.take 3).map (fun r => "pocket_" ++ r.score ++ "_" ++ stem) ∧
    (aggregateTable [processOnePdb (stem ++ ".pdb") csv saveOk pl]).Sorted rowLe := by
  refine ⟨?_, ?_, List.sorted_insertionSort rowLe _⟩
  · simp [pocketsOfCsv]
  · unfold pocketsOfCsv
    rw [List.map_map]
    have hfun : ((fun p : Pocket => p.key) ∘ (fun ir : ℕ × CsvRow =>
        (⟨splitextStem (pocketSaveName ir.2.score (stem ++ ".pdb")), saveOk ir.1,
          pl ir.1⟩ : Pocket))) =
        (fun ir : ℕ × CsvRow => "pocket_" ++ ir.2.score ++ "_" ++ stem) := by
      funext ir
      exact splitextStem_pocketSaveName ir.2.score stem
    rw [hfun]
    exact enum_map_snd_comp (csv.take 3) (fun r => "pocket_" ++ r.score ++ "_" ++ stem)

/-! ### C8: the docking log -/

lemma idockStatusStep_mem (name : String) (dockOk : ℕ → Bool) (st : String) (il : ℕ × String)
    (h : st ∈ (["Success", "Failed", "No Match"] : List String)) :
    idockStatusStep name dockOk st il ∈ (["Success", "Failed", "No Match"] : List String) := by
  unfold idockStatusStep
  split
  · split
    · exact h
    · split
      · simp
      · simp
  · exact h

lemma foldl_idockStatusStep_mem (name : String) (dockOk : ℕ → Bool) :
    ∀ (l : List (ℕ × String)) (st : String),
      st ∈ (["Success", "Failed", "No Match"] : List String) →
      l.foldl (idockStatusStep name dockOk) st ∈
        (["Success", "Failed", "No Match"] : List String) := by
  intro l
  induction l with
  | nil => intro st h; exact h
  | cons il rest ih =>
      intro st h
      exact ih _ (idockStatusStep_mem name dockOk st il h)

/-- C8 counterexample: the claim fails for the vina engine.  For a protein
with no matching center line, 42.vina.py appends the row
`p,0.00,No Matching Center Coordinates`: the log does not begin with the
header line `Protein Name,Time (s),Status` (42.vina.py never writes one), and
the status `No Matching Center Coordinates` is outside
`{Success, Failed, No Match}`. -/
theorem c8_counterexample :
    vinaLog ["p.pdbqt"] [] (fun _ => "0.00") = ["p,0.00,No Matching Center Coordinates"] ∧
    (vinaLog ["p.pdbqt"] [] (fun _ => "0.00")).head? ≠ some "Protein Name,Time (s),Status" ∧
    "No Matching Center Coordinates" ∉ (["Success", "Failed", "No Match"] : List String) := by
  decide

/-- C8 amended: for the idock engine the docking log begins with the header
line `Protein Name,Time (s),Status`, contains exactly one appended row per
protein processed, and every row's status is one of
`{Success, Failed, No Match}`.  For the vina engine the log consists of
exactly one appended row per protein with no header line, and every row's
status is one of `{Success, No Matching Center Coordinates}`. -/
theorem c8_amended (ps lines : List String) (dockOk : String → ℕ → Bool)
    (elapsed : String → String) :
    (idockLog ps lines dockOk elapsed).head? = some "Protein Name,Time (s),Status" ∧
    (idockLog ps lines dockOk elapsed).length = ps.length + 1 ∧
    (∀ pf ∈ ps, idockStatus (normKey pf) (dockOk pf) lines ∈
      (["Success", "Failed", "No Match"] : List String)) ∧
    (vinaLog ps lines elapsed).length = ps.length ∧
    (∀ pf ∈ ps, vinaStatus (normKey pf) lines ∈
      (["Success", "No Matching Center Coordinates"] : List String)) := by
  refine ⟨rfl, by simp [idockLog], ?_, by simp [vinaLog], ?_⟩
  · intro pf _
    exact foldl_idockStatusStep_mem _ _ _ _ (by simp)
  · intro pf _
    unfold vinaStatus
    split
    · simp
    · simp

/-- C8 witness: the amended statement at a one-protein run with one matching,
well-formed center line. -/
theorem c8_witness :
    (idockLog ["out-x.pdbqt"] ["x,1,2,3"] (fun _ _ => true) (fun _ => "1.00")).head? =
      some "Protein Name,Time (s),Status" ∧
    idockStatus (normKey "out-x.pdbqt") (fun _ => true) ["x,1,2,3"] ∈
      (["Success", "Failed", "No Match"] : List String) ∧
    vinaStatus (normKey "out-x.pdbqt") ["x,1,2,3"] ∈
      (["Success", "No Matching Center Coordinates"] : List String) :=
  ⟨(c8_amended ["out-x.pdbqt"] ["x,1,2,3"] (fun _ _ => true) (fun _ => "1.00")).1,
    (c8_amended ["out-x.pdbqt"] ["x,1,2,3"] (fun _ _ => true) (fun _ => "1.00")).2.2.1 _ (by simp),
    (c8_amended ["out-x.pdbqt"] ["x,1,2,3"] (fun _ _ => true) (fun _ => "1.00")).2.2.2.2 _
      (by simp)⟩

end RDock
